import Mathlib

set_option linter.unusedVariables false

/-!
Shallow embedding of the transport-map lifecycle manager and propagation
engine of `wot/model/ot_model.py` (class `OTModel`), together with proofs
about its behaviour.

Modelling conventions:
- Timepoints ("days") are drawn from an arbitrary type `τ` with decidable
  equality (the Python code uses floats but only compares/indexes them in
  the modelled operations).
- Cell ids are drawn from an arbitrary type `ι` with decidable equality.
- Covariate values are drawn from an arbitrary type `γ` with decidable
  equality.
- Weights and matrix entries are rationals `ℚ` (the Python code uses IEEE
  floats; the claims treated here concern exact structural behaviour, and
  `np.isclose(x, 0)` tests are modelled as exact `x = 0`).
- Fallible Python code (raising `ValueError` and friends) is modelled with
  `Except String`, one fixed message constant per raise site.
- NumPy 2-D arrays are modelled by `Mat` (explicit row/column counts plus an
  entry function), so shapes are intrinsic as in NumPy.
-/

/-- Decidable equality for `Except`, used to let `decide` evaluate concrete
model runs. -/
instance {ε α : Type} [DecidableEq ε] [DecidableEq α] : DecidableEq (Except ε α) := fun a b =>
  match a, b with
  | Except.ok x, Except.ok y =>
      if h : x = y then isTrue (by rw [h]) else isFalse (by intro hc; cases hc; exact h rfl)
  | Except.error x, Except.error y =>
      if h : x = y then isTrue (by rw [h]) else isFalse (by intro hc; cases hc; exact h rfl)
  | Except.ok _, Except.error _ => isFalse (by intro hc; cases hc)
  | Except.error _, Except.ok _ => isFalse (by intro hc; cases hc)

/-- Modelled from the spec: the `Population` value object of `wot/population.py`
(not under `src/`): a timepoint together with an ordered weight vector, one
entry per cell alive at that timepoint. -/
structure Population (τ : Type) where
  time : τ
  p : List ℚ
deriving DecidableEq

/-- Modelled from the spec: `wot.model.unique_timepoint` (not under `src/`):
all input populations must share one timepoint, which is returned; otherwise
the call fails (MixedTimepoints). -/
def unique_timepoint {τ : Type} [DecidableEq τ] (pops : List (Population τ)) : Except String τ :=
  match pops with
  | [] => Except.error "No population given"
  | q :: rest =>
      if rest.all (fun r => r.time = q.time) then Except.ok q.time
      else Except.error "Several populations were given, but they do not all live in the same timepoint"

/-- A NumPy-style 2-D array: explicit shape plus entry function. -/
structure Mat where
  rows : ℕ
  cols : ℕ
  entry : ℕ → ℕ → ℚ

/-- `np.dot(v, M)` for a vector `v` (as a list) and matrix `M`:
entry `j` of the result is `Σ_i v_i * M_{i,j}`. Result length is `M.cols`. -/
def vecMatMul (v : List ℚ) (M : Mat) : List ℚ :=
  (List.range M.cols).map (fun j => ((List.range M.rows).map (fun i => v.getD i 0 * M.entry i j)).sum)

/-- `np.dot(M, v)` for a matrix `M` and a vector `v`:
entry `i` of the result is `Σ_j M_{i,j} * v_j`. Result length is `M.rows`. -/
def matVecMul (M : Mat) (v : List ℚ) : List ℚ :=
  (List.range M.rows).map (fun i => ((List.range M.cols).map (fun j => M.entry i j * v.getD j 0)).sum)

/-- Row normalization `p / np.sum(p)` (a row of `(p.T / np.sum(p, axis=1)).T`). -/
def normRow (v : List ℚ) : List ℚ := v.map (fun w => w / v.sum)

/-- Error message constants, one per raise site of `ot_model.py`. -/
def noFurtherMsg : String := "No further timepoints. Unable to push forward"

def noPrevMsg : String := "No previous timepoints. Unable to pull back"

def pushDirMsg : String := "Destination timepoint is before source. Unable to push forward"

def pullDirMsg : String := "Destination timepoint is after source. Unable to pull back"

def tpNotFoundMsg : String := "Timepoint not found"

def destNotFoundMsg : String := "Destination timepoint not found"

def tpsNotFoundMsg : String := "Timepoints not found"

def covAtomicMsg : String := "Covariate-restricted transport maps can only be atomic"

def illegalPairMsg : String := "Transport map is not present in day_pairs"

/-- The part of `OTModel` state consumed by the propagation methods
`push_forward` / `pull_back`: the timepoint index, and for each atomic step
`k` (from `timepoints[k]` to `timepoints[k+1]`) the matrix `.x` of the
transport map that `transport_map(timepoints[k], timepoints[k+1])` loads
(the loading itself, `wot.model.load_transport_map`, is external I/O). -/
structure PropModel (τ : Type) where
  timepoints : List τ
  tmapx : ℕ → Mat

/-- The body of the `while i < j` loop of `OTModel.push_forward`
(`p = np.dot(p, tmap.x)`, then per-row normalization when requested),
iterated `steps` times starting at timepoint index `i`. -/
def push_steps (T : ℕ → Mat) (normalize : Bool) : ℕ → ℕ → List (List ℚ) → List (List ℚ)
  | _, 0, P => P
  | i, steps + 1, P =>
      let P' := P.map (fun v => vecMatMul v (T i))
      let P'' := if normalize then P'.map normRow else P'
      push_steps T normalize (i + 1) steps P''

/-- The body of the `while i > j` loop of `OTModel.pull_back`
(`p = np.dot(tmap.x, p.T).T`, then per-row normalization when requested),
iterated `steps` times starting at timepoint index `i` and walking down. -/
def pull_steps (T : ℕ → Mat) (normalize : Bool) : ℕ → ℕ → List (List ℚ) → List (List ℚ)
  | _, 0, P => P
  | i, steps + 1, P =>
      let P' := P.map (fun v => matVecMul (T (i - 1)) v)
      let P'' := if normalize then P'.map normRow else P'
      pull_steps T normalize (i - 1) steps P''

/-- `OTModel.push_forward`. Python's `list.index` raises on a missing element,
so the membership guards here model those raises; the code's own `if i == -1`
and `if j == -1` checks are dead code and are subsumed by them. The Python
variadic single-input unwrapping (`as_list=False` returning a bare
`Population`) is a return-shape convenience not modelled; the result is always
the ordered list. -/
def push_forward {τ : Type} [DecidableEq τ] (M : PropModel τ) (pops : List (Population τ))
    (to_time : Option τ) (normalize : Bool) : Except String (List (Population τ)) := do
  let t ← unique_timepoint pops
  if t ∈ M.timepoints then
    let i := M.timepoints.indexOf t
    let j ← (match to_time with
      | none => Except.ok (i + 1)
      | some tt =>
          if tt ∈ M.timepoints then Except.ok (M.timepoints.indexOf tt)
          else Except.error destNotFoundMsg)
    if j ≥ M.timepoints.length then Except.error noFurtherMsg
    else if i > j then Except.error pushDirMsg
    else
      let P := pops.map (fun q => q.p)
      let P' := push_steps M.tmapx normalize i (j - i) P
      Except.ok (P'.map (fun v => Population.mk (M.timepoints.getD j t) v))
  else Except.error tpNotFoundMsg

/-- `OTModel.pull_back`. As in the source, the destination index `j` is
computed (and an unknown explicit `to_time` raises) before the `i == 0`
check, and the `i == 0` check fires regardless of `to_time`. -/
def pull_back {τ : Type} [DecidableEq τ] (M : PropModel τ) (pops : List (Population τ))
    (to_time : Option τ) (normalize : Bool) : Except String (List (Population τ)) := do
  let t ← unique_timepoint pops
  if t ∈ M.timepoints then
    let i := M.timepoints.indexOf t
    let j ← (match to_time with
      | none => Except.ok (i - 1)
      | some tt =>
          if tt ∈ M.timepoints then Except.ok (M.timepoints.indexOf tt)
          else Except.error destNotFoundMsg)
    if i = 0 then Except.error noPrevMsg
    else if i < j then Except.error pullDirMsg
    else
      let P := pops.map (fun q => q.p)
      let P' := pull_steps M.tmapx normalize i (i - j) P
      Except.ok (P'.map (fun v => Population.mk (M.timepoints.getD j t) v))
  else Except.error tpNotFoundMsg

/-- Symbolic outcome of `OTModel.transport_map`: which loader / composition
path the method takes (the loads themselves are external I/O collaborators). -/
inductive TMapKind (τ γ : Type) where
  | plainLoad (t0 t1 : τ)
  | covLoad (t0 t1 : τ) (c : γ × γ)
  | chained (t0 t1 : τ)
deriving DecidableEq

/-- `OTModel.transport_map`: timepoint validation, atomicity test, and the
covariate-on-non-atomic-pair rejection; the three success branches are
recorded symbolically. `day_pairs` is modelled by its key set (the per-pair
configuration overrides play no role here). -/
def transport_map {τ γ : Type} [DecidableEq τ] (timepoints : List τ)
    (day_pairs : Option (List (τ × τ))) (t0 t1 : τ) (covariate : Option (γ × γ)) :
    Except String (TMapKind τ γ) :=
  if t0 ∉ timepoints ∨ t1 ∉ timepoints then Except.error tpsNotFoundMsg
  else
    let atomic : Bool :=
      (match day_pairs with
        | some dp => decide ((t0, t1) ∈ dp)
        | none => false)
      || decide (timepoints.indexOf t1 = timepoints.indexOf t0 + 1)
    if ¬ atomic ∧ covariate.isSome then Except.error covAtomicMsg
    else if atomic then
      match covariate with
      | none => Except.ok (TMapKind.plainLoad t0 t1)
      | some c => Except.ok (TMapKind.covLoad t0 t1 c)
    else Except.ok (TMapKind.chained t0 t1)

/-- `pandas.Index.get_indexer_for`: integer position of each requested id in
the index, `-1` for ids absent from it (first-occurrence positions; the
claims using this assume a duplicate-free index, as pandas requires a unique
index here). -/
def get_indexer_for {ι : Type} [DecidableEq ι] (index : List ι) (ids : List ι) : List ℤ :=
  ids.map (fun s => if s ∈ index then ((index.indexOf s : ℕ) : ℤ) else -1)

/-- Python/NumPy integer indexing into an axis of length `len`: non-negative
positions index from the front, negative positions from the back. -/
def pyIdx (len : ℕ) (i : ℤ) : ℕ := if 0 ≤ i then i.toNat else len - (-i).toNat

/-- NumPy fancy indexing `p[idxs]` on a 1-D array. -/
def npGather (p : List ℚ) (idxs : List ℤ) : List ℚ :=
  idxs.map (fun i => p.getD (pyIdx p.length i) 0)

/-- NumPy fancy row indexing `M[idxs, :]` on a 2-D array. -/
def Mat.gatherRows (M : Mat) (idxs : List ℤ) : Mat :=
  ⟨idxs.length, M.cols, fun k j => M.entry (pyIdx M.rows (idxs.getD k 0)) j⟩

/-- The cell-set matrix argument of `population_census`: 0/1 membership of
each cell (row) in each cell set (column). -/
structure CellSetMatrix (ι : Type) where
  rowIds : List ι
  x : Mat

/-- `self.matrix.row_meta.index[self.matrix.row_meta['day'] == day]`: the
cell ids alive at `day`, in row order. The dataset's row metadata is modelled
as the ordered list of (cell id, day) pairs. -/
def idsAtDay {ι τ : Type} [DecidableEq τ] (cells : List (ι × τ)) (day : τ) : List ι :=
  (cells.filter (fun c => c.2 = day)).map Prod.fst

/-- `OTModel.population_census`. `np.isclose(np.sum(p), 0)` is modelled as
exact `p.sum = 0`; `pandas.Index.intersection` is modelled as an order-fixed
filter (only summed over, so its order is irrelevant). The Python variadic
single-input unwrapping of the returned list is a return-shape convenience
not modelled. -/
def population_census {ι τ : Type} [DecidableEq ι] [DecidableEq τ]
    (cells : List (ι × τ)) (cell_set_matrix : CellSetMatrix ι)
    (populations : List (Population τ)) : Except String (List (List ℚ)) := do
  let day ← unique_timepoint populations
  let all_ids_at_t := idsAtDay cells day
  let inter_ids := cell_set_matrix.rowIds.filter (fun s => s ∈ all_ids_at_t)
  if inter_ids.isEmpty then
    Except.ok (List.replicate populations.length (List.replicate cell_set_matrix.x.cols 0))
  else
    let pop_indexer := get_indexer_for all_ids_at_t inter_ids
    let csm_indexer := get_indexer_for cell_set_matrix.rowIds inter_ids
    let get_census := fun (p : List ℚ) =>
      vecMatMul (npGather p pop_indexer) (cell_set_matrix.x.gatherRows csm_indexer)
    let norm := fun (p : List ℚ) => if p.sum = 0 then p else p.map (fun w => w / p.sum)
    Except.ok (populations.map (fun pop => get_census (norm pop.p)))

/-- Definition following the words of the census claim, for comparison with
`population_census`: renormalize each population's weights over the
intersection, i.e. divide by the mass restricted to the intersected cells,
and leave the weights as-is when that intersected mass is zero. -/
def population_census_claimVersion {ι τ : Type} [DecidableEq ι] [DecidableEq τ]
    (cells : List (ι × τ)) (cell_set_matrix : CellSetMatrix ι)
    (populations : List (Population τ)) : Except String (List (List ℚ)) := do
  let day ← unique_timepoint populations
  let all_ids_at_t := idsAtDay cells day
  let inter_ids := cell_set_matrix.rowIds.filter (fun s => s ∈ all_ids_at_t)
  if inter_ids.isEmpty then
    Except.ok (List.replicate populations.length (List.replicate cell_set_matrix.x.cols 0))
  else
    let pop_indexer := get_indexer_for all_ids_at_t inter_ids
    let csm_indexer := get_indexer_for cell_set_matrix.rowIds inter_ids
    let get_census := fun (p : List ℚ) =>
      vecMatMul (npGather p pop_indexer) (cell_set_matrix.x.gatherRows csm_indexer)
    let normInter := fun (p : List ℚ) =>
      if (npGather p pop_indexer).sum = 0 then p
      else p.map (fun w => w / (npGather p pop_indexer).sum)
    Except.ok (populations.map (fun pop => get_census (normInter pop.p)))

/-- The unnormalized census of a raw weight vector: the weighted sum, per
cell-set column, of the membership matrix restricted to the intersection of
the cell-set matrix's row ids with the cell ids alive at `day`. -/
def raw_census {ι τ : Type} [DecidableEq ι] [DecidableEq τ]
    (cells : List (ι × τ)) (cell_set_matrix : CellSetMatrix ι) (day : τ) (p : List ℚ) : List ℚ :=
  let all_ids_at_t := idsAtDay cells day
  let inter_ids := cell_set_matrix.rowIds.filter (fun s => s ∈ all_ids_at_t)
  vecMatMul (npGather p (get_indexer_for all_ids_at_t inter_ids))
    (cell_set_matrix.x.gatherRows (get_indexer_for cell_set_matrix.rowIds inter_ids))

/-- Helper for `indsAtDay`: positions (counting from `k`) of the cells of
`cells` whose day matches. -/
def indsAtDayFrom {ι τ : Type} [DecidableEq τ] (cells : List (ι × τ)) (day : τ) (k : ℕ) :
    List ℕ :=
  match cells with
  | [] => []
  | c :: rest =>
      if c.2 = day then k :: indsAtDayFrom rest day (k + 1)
      else indsAtDayFrom rest day (k + 1)

/-- `np.where(self.matrix.row_meta['day'] == day)[0]`: the row positions of
the cells alive at `day`, in increasing order. -/
def indsAtDay {ι τ : Type} [DecidableEq τ] (cells : List (ι × τ)) (day : τ) : List ℕ :=
  indsAtDayFrom cells day 0

/-- The per-group closure `get_population` inside
`OTModel.population_from_ids`: indicator vector over the rows alive at `day`
of membership of the row position in the group's integer indexer, normalized
to a probability distribution, or `None` when its total mass is (numerically)
zero. `np.isclose(np.sum(p), 0)` is modelled as exact `= 0` (the sum is an
integer count). -/
def get_population {ι τ : Type} [DecidableEq ι] [DecidableEq τ]
    (cells : List (ι × τ)) (day : τ) (ids_el : List ι) : Option (Population τ) :=
  let cell_inds := get_indexer_for (cells.map Prod.fst) ids_el
  let p : List ℚ :=
    (indsAtDay cells day).map (fun (id : ℕ) => if (id : ℤ) ∈ cell_inds then 1 else 0)
  if p.sum = 0 then none
  else some (Population.mk day (p.map (fun w => w / p.sum)))

/-- `OTModel.population_from_ids` with an explicit `at_time` (so the
day-inference branch for `at_time=None`, which reads the first id's day and
checks all ids share it, is not taken; `float(at_time)` is the identity
here). The Python variadic single-input unwrapping of the returned list is a
return-shape convenience not modelled. -/
def population_from_ids {ι τ : Type} [DecidableEq ι] [DecidableEq τ]
    (cells : List (ι × τ)) (ids : List (List ι)) (at_time : τ) :
    List (Option (Population τ)) :=
  ids.map (fun ids_el => get_population cells at_time ids_el)

/-- The documented default table of `OTModel.get_ot_config`. -/
def ot_defaults : List (String × ℚ) :=
  [("epsilon", 1/20), ("lambda1", 1), ("lambda2", 50),
   ("epsilon0", 1), ("tau", 10000),
   ("growth_iters", 3), ("batch_size", 50),
   ("local_pca", 30), ("max_iter", 10000000),
   ("tolerance", 1/100)]

/-- A value stored in the effective OT configuration: a numeric solver
hyperparameter, a timepoint, or a covariate restriction. -/
inductive OTVal (τ γ : Type) where
  | num (q : ℚ)
  | day (t : τ)
  | covv (c : Option (γ × γ))
deriving DecidableEq

/-- `OTModel.get_ot_config`: exactly the default-table keys, each taking the
user-supplied value when one was given and the documented default otherwise;
user-supplied keys outside the table are dropped. Dictionaries are modelled
as functions to `Option`. -/
def get_ot_config {τ γ : Type} (user : String → Option (OTVal τ γ)) :
    String → Option (OTVal τ γ) :=
  fun k =>
    match ot_defaults.lookup k with
    | some d => some ((user k).getD (OTVal.num d))
    | none => none

/-- The effective configuration built by `OTModel.compute_transport_map`:
`{ **self.get_ot_config(), **local_config, 't0': t0, 't1': t1,
'covariate': covariate }`, with later entries winning, where `local_config`
is the `DayPairRegistry` per-pair override (empty when no registry or no
override). -/
def effective_config {τ γ : Type} (user ovr : String → Option (OTVal τ γ))
    (t0 t1 : τ) (covariate : Option (γ × γ)) : String → Option (OTVal τ γ) :=
  fun k =>
    if k = "t0" then some (OTVal.day t0)
    else if k = "t1" then some (OTVal.day t1)
    else if k = "covariate" then some (OTVal.covv covariate)
    else
      match ovr k with
      | some v => some v
      | none => get_ot_config user k

/-- A candidate transport-map key of `compute_all_transport_maps`: a plain
day pair, or a day pair crossed with an ordered covariate pair. -/
inductive Cand (τ γ : Type) where
  | plain (t0 t1 : τ)
  | covr (t0 t1 : τ) (c0 c1 : γ)
deriving DecidableEq

/-- The `OTModel` fields consumed by the compute scheduler: timepoint index,
optional day-pair registry (key set), covariate values of the dataset
(`sorted(set(row_meta['covariate']))`), worker bound, transport-map filename
prefix, and the numeric-to-string renderings used in filenames. -/
structure SchedModel (τ γ : Type) where
  timepoints : List τ
  day_pairs : Option (List (τ × τ))
  covValues : List γ
  max_threads : ℕ
  tmapPref : String
  dayStr : τ → String
  covStr : γ → String

/-- The mutable state touched by the scheduler: the two in-memory cache maps
(`self.tmaps`, `self.cov_tmaps`, newest entry first), the files written to
the transport-map directory, and a log of external solver invocations
(`compute_single_transport_map`) with the day pair and covariate passed. -/
structure CacheState (τ γ : Type) where
  tmaps : List ((τ × τ) × String)
  cov_tmaps : List ((τ × τ × γ × γ) × String)
  files : List String
  solver_log : List (τ × τ × Option (γ × γ))
deriving DecidableEq

/-- `OTModel.compute_transport_map` as a state transformer: rejects a pair
absent from an active day-pair registry, invokes the external solver (logged)
with the effective configuration, updates the single corresponding in-memory
cache entry, and writes the transport map under the deterministic filename. -/
def compute_transport_map_st {τ γ : Type} [DecidableEq τ] [DecidableEq γ]
    (M : SchedModel τ γ) (st : CacheState τ γ) (t0 t1 : τ) (covariate : Option (γ × γ)) :
    Except String (CacheState τ γ) :=
  let path := M.tmapPref
  let legal : Bool := match M.day_pairs with
    | some dp => decide ((t0, t1) ∈ dp)
    | none => true
  if ¬ legal then Except.error illegalPairMsg
  else
    let st1 : CacheState τ γ := { st with solver_log := st.solver_log ++ [(t0, t1, covariate)] }
    match covariate with
    | none =>
        let path := path ++ "_" ++ M.dayStr t0 ++ "_" ++ M.dayStr t1 ++ ".loom"
        Except.ok { st1 with
          tmaps := ((t0, t1), path) :: st1.tmaps,
          files := st1.files ++ [path] }
    | some (c0, c1) =>
        let path := path ++ "_" ++ M.dayStr t0 ++ "_" ++ M.dayStr t1
          ++ "_cv" ++ M.covStr c0 ++ "_cv" ++ M.covStr c1 ++ ".loom"
        Except.ok { st1 with
          cov_tmaps := ((t0, t1, c0, c1), path) :: st1.cov_tmaps,
          files := st1.files ++ [path] }

/-- Whether a candidate key is already present in the in-memory cache. -/
def cached {τ γ : Type} [DecidableEq τ] [DecidableEq γ]
    (st : CacheState τ γ) (c : Cand τ γ) : Bool :=
  match c with
  | Cand.plain t0 t1 => (st.tmaps.lookup (t0, t1)).isSome
  | Cand.covr t0 t1 c0 c1 => (st.cov_tmaps.lookup (t0, t1, c0, c1)).isSome

/-- The candidate key list of `OTModel.compute_all_transport_maps`: day pairs
from the registry, else consecutive timepoint pairs; crossed with every
ordered covariate pair when `with_covariates`; unless `force`, keys already
present in the corresponding in-memory cache map are dropped. -/
def candidate_keys {τ γ : Type} [DecidableEq τ] [DecidableEq γ]
    (M : SchedModel τ γ) (st : CacheState τ γ) (force with_covariates : Bool) :
    List (Cand τ γ) :=
  let t := M.timepoints
  let base : List (τ × τ) := match M.day_pairs with
    | some dp => dp
    | none => t.zip t.tail
  let cands : List (Cand τ γ) :=
    if with_covariates then
      (base.product (M.covValues.product M.covValues)).map
        (fun x => Cand.covr x.1.1 x.1.2 x.2.1 x.2.2)
    else base.map (fun x => Cand.plain x.1 x.2)
  if force then cands else cands.filter (fun c => ¬ cached st c)

/-- `OTModel.compute_all_transport_maps`. When no candidate remains the
method returns with no work done; with worker bound `m ≤ 1` it computes the
candidates sequentially in listed order; with `m > 1` it dispatches worker
processes (whose memory is isolated from the parent) and then rebuilds the
in-memory cache from a directory re-scan — that batch is modelled by the
opaque collaborator `parallelRun` (its scheduling discipline is modelled
separately by `schedule`). -/
def compute_all_transport_maps {τ γ : Type} [DecidableEq τ] [DecidableEq γ]
    (M : SchedModel τ γ)
    (parallelRun : CacheState τ γ → List (Cand τ γ) → CacheState τ γ)
    (st : CacheState τ γ) (force with_covariates : Bool) :
    Except String (CacheState τ γ) :=
  let day_pairs := candidate_keys M st force with_covariates
  let m := M.max_threads
  if day_pairs.isEmpty then Except.ok st
  else if m > 1 then Except.ok (parallelRun st day_pairs)
  else day_pairs.foldlM (fun s c =>
    match c with
    | Cand.plain t0 t1 => compute_transport_map_st M s t0 t1 none
    | Cand.covr t0 t1 c0 c1 => compute_transport_map_st M s t0 t1 (some (c0, c1))) st

/-- An observable event of the parallel dispatch loop of
`compute_all_transport_maps`: worker process `i` is started, or worker
process `i` is joined (at which point it has fully completed). -/
inductive Ev where
  | started (i : ℕ)
  | joined (i : ℕ)
deriving DecidableEq

/-- One iteration of the dispatch loop
`for i in range(len(procs) + m): if i >= m: procs[i-m].join();
if i < len(procs): procs[i].start()` with `n = len(procs)`. -/
def schedStep (n m i : ℕ) : List Ev :=
  (if m ≤ i then [Ev.joined (i - m)] else []) ++ (if i < n then [Ev.started i] else [])

/-- The ordered event trace produced by the dispatch loop for `n` worker
processes under worker bound `m`. -/
def schedule (n m : ℕ) : List Ev :=
  (List.range (n + m)).flatMap (schedStep n m)

/-- Number of start events in a trace segment. -/
def countStarted (l : List Ev) : ℕ :=
  (l.filter (fun e => match e with | Ev.started _ => true | Ev.joined _ => false)).length

/-- Number of join events in a trace segment. -/
def countJoined (l : List Ev) : ℕ :=
  (l.filter (fun e => match e with | Ev.started _ => false | Ev.joined _ => true)).length

/-! ### Helper lemmas -/

theorem except_bind_ok {ε α β : Type} (a : α) (f : α → Except ε β) :
    (Except.ok a >>= f : Except ε β) = f a := rfl

theorem unique_timepoint_eq_ok {τ : Type} [DecidableEq τ] (pops : List (Population τ)) (t : τ)
    (hne : pops ≠ []) (ht : ∀ q ∈ pops, q.time = t) :
    unique_timepoint pops = Except.ok t := by
  cases pops with
  | nil => exact absurd rfl hne
  | cons q rest =>
    have hq : q.time = t := ht q (List.mem_cons_self _ _)
    have hall : rest.all (fun r => decide (r.time = q.time)) = true := by
      rw [List.all_eq_true]
      intro r hr
      have hrt := ht r (List.mem_cons_of_mem _ hr)
      simp [hrt, hq]
    rw [hq] at hall
    simp only [unique_timepoint, hq, hall, if_true]

theorem getD_indexOf_self {τ : Type} [DecidableEq τ] (l : List τ) (t d : τ) (h : t ∈ l) :
    l.getD (l.indexOf t) d = t := by
  have hlt : l.indexOf t < l.length := List.indexOf_lt_length.2 h
  rw [List.getD_eq_getElem l d hlt]
  exact List.getElem_indexOf hlt

/-! ### Claim C5 -/

/-- C5: for every `t0` and `t1` in the timepoint index and every non-`None`
covariate, `transport_map` raises the covariate-restricted-maps-must-be-atomic
`ValueError` whenever the pair `(t0, t1)` is not atomic, i.e. not present in
an active day-pair registry and with `t1` not at the position immediately
after `t0` in the timepoint index. -/
theorem transport_map_covariate_requires_atomic {τ γ : Type} [DecidableEq τ] [DecidableEq γ]
    (timepoints : List τ) (day_pairs : Option (List (τ × τ))) (t0 t1 : τ) (cv : γ × γ)
    (h0 : t0 ∈ timepoints) (h1 : t1 ∈ timepoints)
    (hdp : ∀ dp, day_pairs = some dp → (t0, t1) ∉ dp)
    (hsucc : timepoints.indexOf t1 ≠ timepoints.indexOf t0 + 1) :
    transport_map timepoints day_pairs t0 t1 (some cv) = Except.error covAtomicMsg := by
  cases day_pairs with
  | none => simp [transport_map, h0, h1, hsucc]
  | some dp => simp [transport_map, h0, h1, hsucc, hdp dp rfl]

/-- Witness for C5, matching the end-to-end example of the spec:
with timepoint index `[0, 1, 2]` and no day-pair registry, requesting the
transport map for `(0, 2)` with covariate `(1, 2)` fails with the
covariate-restriction error. -/
theorem transport_map_covariate_requires_atomic_witness :
    transport_map (τ := ℕ) (γ := ℕ) [0, 1, 2] none 0 2 (some (1, 2))
      = Except.error covAtomicMsg :=
  transport_map_covariate_requires_atomic [0, 1, 2] none 0 2 (1, 2)
    (by decide) (by decide) (fun dp h => nomatch h) (by decide)

/-! ### Claim C6 -/

/-- C6: for every non-empty set of populations sharing one timepoint `t`,
when the cell-set matrix's row ids have empty intersection with the cell ids
alive at `t`, `population_census` returns for each input population the
all-zero vector whose length is the number of cell sets (the column count of
the cell-set matrix). -/
theorem population_census_empty_intersection {ι τ : Type} [DecidableEq ι] [DecidableEq τ]
    (cells : List (ι × τ)) (csm : CellSetMatrix ι) (pops : List (Population τ)) (t : τ)
    (hne : pops ≠ []) (ht : ∀ q ∈ pops, q.time = t)
    (hempty : ∀ s ∈ csm.rowIds, s ∉ idsAtDay cells t) :
    population_census cells csm pops
      = Except.ok (List.replicate pops.length (List.replicate csm.x.cols 0)) := by
  have hut := unique_timepoint_eq_ok pops t hne ht
  have hfilter : csm.rowIds.filter (fun s => decide (s ∈ idsAtDay cells t)) = [] := by
    rw [List.filter_eq_nil_iff]
    intro s hs
    simpa using hempty s hs
  simp only [population_census, hut, except_bind_ok, hfilter, List.isEmpty_nil, if_true]

/-- Witness for C6: a one-cell-set matrix over id `5` against a dataset whose
only cell alive at day `0` is id `7` yields the all-zero one-entry census. -/
theorem population_census_empty_intersection_witness :
    population_census (ι := ℕ) (τ := ℕ) [(7, 0)] ⟨[5], ⟨1, 1, fun _ _ => 1⟩⟩
      [⟨0, [1]⟩] = Except.ok [[0]] := by
  have h := population_census_empty_intersection (ι := ℕ) (τ := ℕ)
    [(7, 0)] ⟨[5], ⟨1, 1, fun _ _ => 1⟩⟩ [⟨0, [1]⟩] 0
    (by simp) (by simp) (by decide)
  simpa using h

/-! ### Claim C10 -/

/-- C10: for every set of populations sharing one timepoint `t` in the
timepoint index, calling `push_forward` with `to_time = t` performs zero
propagation steps and returns populations at `t` whose weight vectors are
exactly the input weight vectors, for any transport maps `T` (none is
consulted) and any value of `normalize` (none is applied). -/
theorem push_forward_to_same_time {τ : Type} [DecidableEq τ]
    (timepoints : List τ) (T : ℕ → Mat) (pops : List (Population τ)) (t : τ)
    (normalize : Bool)
    (hne : pops ≠ []) (ht : ∀ q ∈ pops, q.time = t) (hmem : t ∈ timepoints)
    (hlen : ∀ q ∈ pops, ∀ q' ∈ pops, q.p.length = q'.p.length) :
    push_forward ⟨timepoints, T⟩ pops (some t) normalize
      = Except.ok (pops.map (fun q => Population.mk t q.p)) := by
  have hut := unique_timepoint_eq_ok pops t hne ht
  have hlt : timepoints.indexOf t < timepoints.length := List.indexOf_lt_length.2 hmem
  have h1 : ¬ (timepoints.length ≤ timepoints.indexOf t) := Nat.not_le.2 hlt
  have hgetD2 : (timepoints[timepoints.indexOf t]?).getD t = t := by
    rw [List.getElem?_eq_getElem hlt]
    simpa using List.getElem_indexOf hlt
  simp [push_forward, hut, except_bind_ok, hmem, h1, hgetD2, push_steps,
    Function.comp_def]

/-- Witness for C10: a single population at day `0` of a two-timepoint model,
pushed forward to day `0` itself with `normalize = true`, is returned
unchanged. -/
theorem push_forward_to_same_time_witness :
    push_forward (τ := ℕ) ⟨[0, 1], fun _ => ⟨1, 1, fun _ _ => 0⟩⟩
      [⟨0, [1, 2]⟩] (some 0) true = Except.ok [⟨0, [1, 2]⟩] := by
  have h := push_forward_to_same_time [0, 1] (fun _ => ⟨1, 1, fun _ _ => 0⟩)
    [⟨0, [1, 2]⟩] 0 true (by simp) (by simp) (by decide)
    (by intro q hq q' hq'; simp at hq hq'; rw [hq, hq'])
  simpa using h

/-! ### Claim C2 -/

/-- C2 counterexample: with timepoint index `[0, 1]`, a population at
timepoint `0` and the explicit destination `to_time = 0` — which is present
in the timepoint index and does not imply moving in the wrong direction —
`pull_back` still raises the no-previous-timepoint error, because the
`i == 0` check in the source fires regardless of `to_time`. The claim as
stated (the error is raised exactly when no explicit `toTime` is given, and
never with a valid explicit `toTime`) is therefore false. -/
theorem pull_back_first_timepoint_explicit_dest_counterexample :
    pull_back (τ := ℕ) ⟨[0, 1], fun _ => ⟨1, 1, fun _ _ => 1⟩⟩
      [⟨0, [1]⟩] (some 0) true = Except.error noPrevMsg := by
  decide

/-- C2 as amended: for populations sharing a timepoint `t` of the timepoint
index, (1) `push_forward` with no explicit destination raises the
no-further-timepoint error exactly when `t` sits at the last position;
(2) `pull_back` raises the no-previous-timepoint error exactly when `t` sits
at the first position — with or without an explicit (known) destination,
unlike the original claim; (3) `push_forward` with an explicit known
destination not in the wrong direction raises no error at all; and
(4) so does `pull_back`, provided additionally that `t` is not at the first
position. -/
theorem push_pull_boundary_errors {τ : Type} [DecidableEq τ]
    (timepoints : List τ) (T : ℕ → Mat) (pops : List (Population τ)) (t : τ)
    (normalize : Bool)
    (hne : pops ≠ []) (ht : ∀ q ∈ pops, q.time = t) (hmem : t ∈ timepoints) :
    (push_forward ⟨timepoints, T⟩ pops none normalize = Except.error noFurtherMsg
        ↔ timepoints.indexOf t = timepoints.length - 1)
    ∧ (∀ to_time : Option τ, (∀ tt, to_time = some tt → tt ∈ timepoints) →
        (pull_back ⟨timepoints, T⟩ pops to_time normalize = Except.error noPrevMsg
          ↔ timepoints.indexOf t = 0))
    ∧ (∀ tt, tt ∈ timepoints → timepoints.indexOf t ≤ timepoints.indexOf tt →
        ∃ res, push_forward ⟨timepoints, T⟩ pops (some tt) normalize = Except.ok res)
    ∧ (∀ tt, tt ∈ timepoints → timepoints.indexOf tt ≤ timepoints.indexOf t →
        timepoints.indexOf t ≠ 0 →
        ∃ res, pull_back ⟨timepoints, T⟩ pops (some tt) normalize = Except.ok res) := by
  have hut := unique_timepoint_eq_ok pops t hne ht
  have hlt : timepoints.indexOf t < timepoints.length := List.indexOf_lt_length.2 hmem
  refine ⟨?_, ?_, ?_, ?_⟩
  · by_cases hlast : timepoints.indexOf t = timepoints.length - 1
    · have hge : timepoints.length ≤ timepoints.indexOf t + 1 := by omega
      simp [push_forward, hut, except_bind_ok, hmem, hge]
      omega
    · have hge : ¬ (timepoints.length ≤ timepoints.indexOf t + 1) := by omega
      simp [push_forward, hut, except_bind_ok, hmem, hge, hlast]
  · intro to_time hvt
    cases to_time with
    | none =>
        by_cases hi : timepoints.indexOf t = 0
        · simp [pull_back, hut, except_bind_ok, hmem, hi]
        · have hij : ¬ (timepoints.indexOf t < timepoints.indexOf t - 1) := by omega
          simp [pull_back, hut, except_bind_ok, hmem, hi, hij]
    | some tt =>
        have htt := hvt tt rfl
        by_cases hi : timepoints.indexOf t = 0
        · simp [pull_back, hut, except_bind_ok, hmem, htt, hi]
        · by_cases hij : timepoints.indexOf t < timepoints.indexOf tt
          · simp only [pull_back, hut, except_bind_ok, hmem, if_true, htt, hi, if_false, hij]
            constructor
            · intro h
              exact absurd (Except.error.inj h) (by decide)
            · intro h
              exact h.elim
          · simp [pull_back, hut, except_bind_ok, hmem, htt, hi, hij]
  · intro tt htt hij
    have hjlt : timepoints.indexOf tt < timepoints.length := List.indexOf_lt_length.2 htt
    have h1 : ¬ (timepoints.length ≤ timepoints.indexOf tt) := by omega
    have h2 : ¬ (timepoints.indexOf tt < timepoints.indexOf t) := by omega
    rcases hres : push_forward ⟨timepoints, T⟩ pops (some tt) normalize with e | res
    · simp [push_forward, hut, except_bind_ok, hmem, htt, h1, h2] at hres
    · exact ⟨res, rfl⟩
  · intro tt htt hij hi
    have h2 : ¬ (timepoints.indexOf t < timepoints.indexOf tt) := by omega
    rcases hres : pull_back ⟨timepoints, T⟩ pops (some tt) normalize with e | res
    · simp [pull_back, hut, except_bind_ok, hmem, htt, hi, h2] at hres
    · exact ⟨res, rfl⟩

/-- Witness for the amended C2, instantiated at timepoint index `[0, 1]` with
a single population at timepoint `0`. -/
theorem push_pull_boundary_errors_witness :
    (push_forward (τ := ℕ) ⟨[0, 1], fun _ => ⟨1, 1, fun _ _ => 1⟩⟩
        [⟨0, [1]⟩] none true = Except.error noFurtherMsg
      ↔ List.indexOf 0 [0, 1] = List.length [0, 1] - 1)
    ∧ (∀ to_time : Option ℕ, (∀ tt, to_time = some tt → tt ∈ [0, 1]) →
        (pull_back (τ := ℕ) ⟨[0, 1], fun _ => ⟨1, 1, fun _ _ => 1⟩⟩
            [⟨0, [1]⟩] to_time true = Except.error noPrevMsg
          ↔ List.indexOf 0 [0, 1] = 0))
    ∧ (∀ tt, tt ∈ [0, 1] → List.indexOf 0 [0, 1] ≤ List.indexOf tt [0, 1] →
        ∃ res, push_forward (τ := ℕ) ⟨[0, 1], fun _ => ⟨1, 1, fun _ _ => 1⟩⟩
          [⟨0, [1]⟩] (some tt) true = Except.ok res)
    ∧ (∀ tt, tt ∈ [0, 1] → List.indexOf tt [0, 1] ≤ List.indexOf 0 [0, 1] →
        List.indexOf 0 [0, 1] ≠ 0 →
        ∃ res, pull_back (τ := ℕ) ⟨[0, 1], fun _ => ⟨1, 1, fun _ _ => 1⟩⟩
          [⟨0, [1]⟩] (some tt) true = Except.ok res) :=
  push_pull_boundary_errors [0, 1] (fun _ => ⟨1, 1, fun _ _ => 1⟩)
    [⟨0, [1]⟩] 0 true (by simp) (by simp) (by decide)

/-! ### Claim C3 -/

theorem countStarted_append (l1 l2 : List Ev) :
    countStarted (l1 ++ l2) = countStarted l1 + countStarted l2 := by
  simp [countStarted]

theorem countJoined_append (l1 l2 : List Ev) :
    countJoined (l1 ++ l2) = countJoined l1 + countJoined l2 := by
  simp [countJoined]

theorem countStarted_schedStep (n m k : ℕ) :
    countStarted (schedStep n m k) = if k < n then 1 else 0 := by
  by_cases h1 : m ≤ k <;> by_cases h2 : k < n <;>
    simp [schedStep, countStarted, h1, h2]

theorem countJoined_schedStep (n m k : ℕ) :
    countJoined (schedStep n m k) = if m ≤ k then 1 else 0 := by
  by_cases h1 : m ≤ k <;> by_cases h2 : k < n <;>
    simp [schedStep, countJoined, h1, h2]

theorem counts_schedule_range (n m k : ℕ) :
    countStarted ((List.range k).flatMap (schedStep n m)) = min k n
    ∧ countJoined ((List.range k).flatMap (schedStep n m)) = k - m := by
  induction k with
  | zero => simp [countStarted, countJoined]
  | succ k ih =>
    rcases ih with ⟨ihs, ihj⟩
    rw [List.range_succ, List.flatMap_append]
    have hone : ([k] : List ℕ).flatMap (schedStep n m) = schedStep n m k := by simp
    rw [hone, countStarted_append, countJoined_append, ihs, ihj,
      countStarted_schedStep, countJoined_schedStep]
    constructor
    · by_cases h2 : k < n <;> simp [h2] <;> omega
    · by_cases h1 : m ≤ k <;> simp [h1] <;> omega

theorem take_counts_bound (n m k : ℕ) : ∀ t,
    countStarted (((List.range k).flatMap (schedStep n m)).take t)
      ≤ countJoined (((List.range k).flatMap (schedStep n m)).take t) + m := by
  induction k with
  | zero => intro t; simp [countStarted, countJoined]
  | succ k ih =>
    intro t
    rw [List.range_succ, List.flatMap_append, List.take_append_eq_append_take,
      countStarted_append, countJoined_append]
    have hone : ([k] : List ℕ).flatMap (schedStep n m) = schedStep n m k := by simp
    rcases le_or_lt t ((List.range k).flatMap (schedStep n m)).length with hle | hgt
    · have hz : t - ((List.range k).flatMap (schedStep n m)).length = 0 := by omega
      rw [hz]
      simpa [countStarted, countJoined] using ih t
    · have hfull : ((List.range k).flatMap (schedStep n m)).take t
          = (List.range k).flatMap (schedStep n m) :=
        List.take_of_length_le (by omega)
      rw [hfull, (counts_schedule_range n m k).1, (counts_schedule_range n m k).2, hone]
      rcases hs : t - ((List.range k).flatMap (schedStep n m)).length with _ | s
      · omega
      · by_cases h1 : m ≤ k <;> by_cases h2 : k < n <;>
          simp only [schedStep, h1, h2, if_true, if_false, List.nil_append,
            List.append_nil, List.take_succ_cons, List.take_nil] <;>
          rcases s with _ | s <;>
          simp [countStarted, countJoined] <;> omega

/-- C3: the dispatch loop of `compute_all_transport_maps` under worker bound
`m` with `n` worker processes: (1) at every point of the event trace, the
number of started processes exceeds the number of joined (hence certainly
completed) processes by at most `m`, so at most `m` workers are ever
simultaneously active; and (2) for each `i` with `m ≤ i < n`, the unique
start of process `i` is immediately preceded by the join of process `i − m`
— the strict FIFO window in which a process that finishes early does not
free a slot early. -/
theorem compute_all_dispatch_window (n m : ℕ) (hm : 1 < m) (hn : m < n) :
    (∀ t, countStarted ((schedule n m).take t)
        ≤ countJoined ((schedule n m).take t) + m)
    ∧ (∀ i, m ≤ i → i < n →
        ∃ pre suf, schedule n m = pre ++ Ev.joined (i - m) :: Ev.started i :: suf
          ∧ Ev.started i ∉ pre) := by
  constructor
  · intro t
    exact take_counts_bound n m (n + m) t
  · intro i hmi hin
    have hnm : n + m = (i + 1) + (n + m - (i + 1)) := by omega
    have hstep : schedStep n m i = Ev.joined (i - m) :: Ev.started i :: [] := by
      simp [schedStep, hmi, hin]
    refine ⟨(List.range i).flatMap (schedStep n m),
      (List.map (fun x => i + 1 + x) (List.range (n + m - (i + 1)))).flatMap (schedStep n m),
      ?_, ?_⟩
    · rw [schedule, hnm, List.range_add, List.flatMap_append, List.range_succ,
        List.flatMap_append]
      have hone : ([i] : List ℕ).flatMap (schedStep n m) = schedStep n m i := by simp
      rw [hone, hstep, List.append_assoc, Nat.add_sub_cancel_left]
      rfl
    · intro hmem
      rw [List.mem_flatMap] at hmem
      rcases hmem with ⟨a, ha, hin2⟩
      rw [List.mem_range] at ha
      rcases List.mem_append.1 hin2 with h | h
      · by_cases h1 : m ≤ a <;> simp [h1] at h
      · by_cases h2 : a < n <;> simp [h2] at h
        omega

/-- Witness for C3 at worker bound `m = 2` and `n = 3` worker processes. -/
theorem compute_all_dispatch_window_witness :
    (∀ t, countStarted ((schedule 3 2).take t)
        ≤ countJoined ((schedule 3 2).take t) + 2)
    ∧ (∀ i, 2 ≤ i → i < 3 →
        ∃ pre suf, schedule 3 2 = pre ++ Ev.joined (i - 2) :: Ev.started i :: suf
          ∧ Ev.started i ∉ pre) :=
  compute_all_dispatch_window 3 2 (by decide) (by decide)

/-! ### Claim C4 -/

/-- C4: the effective configuration passed to the solver by
`compute_transport_map(t0, t1, covariate)`, for any per-pair override whose
keys stay within the default table: its domain is exactly the default-table
keys plus `t0`, `t1` and `covariate`; the three reserved keys carry the
requested pair and covariate; each default-table key resolves to the
override value when one exists, else the user-supplied value when one was
given, else the documented default; and every other key — in particular any
user-supplied configuration key outside the table — is absent (never
surfaced to the solver; the model is total, so no error is possible). -/
theorem effective_config_resolution {τ γ : Type} (user ovr : String → Option (OTVal τ γ))
    (t0 t1 : τ) (cov : Option (γ × γ))
    (hovr : ∀ k, (ovr k).isSome → (ot_defaults.lookup k).isSome) (k : String) :
    ((effective_config user ovr t0 t1 cov k).isSome
      ↔ ((ot_defaults.lookup k).isSome ∨ k = "t0" ∨ k = "t1" ∨ k = "covariate"))
    ∧ (k = "t0" → effective_config user ovr t0 t1 cov k = some (OTVal.day t0))
    ∧ (k = "t1" → effective_config user ovr t0 t1 cov k = some (OTVal.day t1))
    ∧ (k = "covariate" → effective_config user ovr t0 t1 cov k = some (OTVal.covv cov))
    ∧ (k ≠ "t0" → k ≠ "t1" → k ≠ "covariate" →
        ∀ d, ot_defaults.lookup k = some d →
          effective_config user ovr t0 t1 cov k
            = some ((ovr k).getD ((user k).getD (OTVal.num d))))
    ∧ (k ≠ "t0" → k ≠ "t1" → k ≠ "covariate" → ot_defaults.lookup k = none →
        effective_config user ovr t0 t1 cov k = none) := by
  refine ⟨?_, ?_, ?_, ?_, ?_, ?_⟩
  · by_cases hk0 : k = "t0"
    · simp [effective_config, hk0]
    · by_cases hk1 : k = "t1"
      · simp [effective_config, hk0, hk1]
      · by_cases hk2 : k = "covariate"
        · simp [effective_config, hk0, hk1, hk2]
        · simp only [effective_config, hk0, hk1, hk2, if_false]
          cases hov : ovr k with
          | some v =>
              have hl := hovr k (by rw [hov]; rfl)
              simp [hov, hl, hk0, hk1, hk2]
          | none =>
              cases hl : ot_defaults.lookup k with
              | some d => simp [hov, get_ot_config, hl, hk0, hk1, hk2]
              | none => simp [hov, get_ot_config, hl, hk0, hk1, hk2]
  · intro hk; simp [effective_config, hk]
  · intro hk
    by_cases hk0 : k = "t0"
    · rw [hk] at hk0; exact absurd hk0 (by decide)
    · simp [effective_config, hk, hk0]
  · intro hk
    by_cases hk0 : k = "t0"
    · rw [hk] at hk0; exact absurd hk0 (by decide)
    · by_cases hk1 : k = "t1"
      · rw [hk] at hk1; exact absurd hk1 (by decide)
      · simp [effective_config, hk, hk0, hk1]
  · intro hk0 hk1 hk2 d hd
    cases hov : ovr k with
    | some v => simp [effective_config, hk0, hk1, hk2, hov]
    | none => simp [effective_config, hk0, hk1, hk2, hov, get_ot_config, hd]
  · intro hk0 hk1 hk2 hd
    cases hov : ovr k with
    | some v =>
        have hl := hovr k (by rw [hov]; rfl)
        rw [hd] at hl
        exact absurd hl (by decide)
    | none => simp [effective_config, hk0, hk1, hk2, hov, get_ot_config, hd]

/-- Witness for C4 at an empty user configuration and empty override,
requested pair `(0, 1)` with no covariate, probed at key `"epsilon"`. -/
theorem effective_config_resolution_witness :
    ((effective_config (τ := ℕ) (γ := ℕ) (fun _ => none) (fun _ => none)
        0 1 none "epsilon").isSome
      ↔ ((ot_defaults.lookup "epsilon").isSome ∨ "epsilon" = "t0" ∨ "epsilon" = "t1"
          ∨ "epsilon" = "covariate"))
    ∧ ("epsilon" = "t0" → effective_config (τ := ℕ) (γ := ℕ) (fun _ => none) (fun _ => none)
        0 1 none "epsilon" = some (OTVal.day 0))
    ∧ ("epsilon" = "t1" → effective_config (τ := ℕ) (γ := ℕ) (fun _ => none) (fun _ => none)
        0 1 none "epsilon" = some (OTVal.day 1))
    ∧ ("epsilon" = "covariate" → effective_config (τ := ℕ) (γ := ℕ) (fun _ => none)
        (fun _ => none) 0 1 none "epsilon" = some (OTVal.covv none))
    ∧ ("epsilon" ≠ "t0" → "epsilon" ≠ "t1" → "epsilon" ≠ "covariate" →
        ∀ d, ot_defaults.lookup "epsilon" = some d →
          effective_config (τ := ℕ) (γ := ℕ) (fun _ => none) (fun _ => none) 0 1 none "epsilon"
            = some (((fun (_ : String) => (none : Option (OTVal ℕ ℕ))) "epsilon").getD
                (((fun (_ : String) => (none : Option (OTVal ℕ ℕ))) "epsilon").getD
                  (OTVal.num d))))
    ∧ ("epsilon" ≠ "t0" → "epsilon" ≠ "t1" → "epsilon" ≠ "covariate" →
        ot_defaults.lookup "epsilon" = none →
        effective_config (τ := ℕ) (γ := ℕ) (fun _ => none) (fun _ => none) 0 1 none "epsilon"
          = none) :=
  effective_config_resolution (fun _ => none) (fun _ => none) 0 1 none
    (fun k h => absurd h (by simp)) "epsilon"

/-! ### Claim C7 -/

/-- C7: `compute_all_transport_maps` with `force = false` drops from its
candidate set every key already present in the corresponding in-memory cache
map (`tmaps`, or `cov_tmaps` when `with_covariates`), and when — as under the
hypothesis here — every candidate is already cached, it returns having done
no work: the returned state is the input state unchanged (no solver
invocation logged, no file written, cache maps untouched), for any behaviour
`parallelRun` of the parallel branch. -/
theorem compute_all_no_work_when_cached {τ γ : Type} [DecidableEq τ] [DecidableEq γ]
    (M : SchedModel τ γ)
    (parallelRun : CacheState τ γ → List (Cand τ γ) → CacheState τ γ)
    (st : CacheState τ γ) (with_covariates : Bool)
    (hall : ∀ c ∈ candidate_keys M st true with_covariates, cached st c = true) :
    candidate_keys M st false with_covariates
      = (candidate_keys M st true with_covariates).filter (fun c => ¬ cached st c)
    ∧ compute_all_transport_maps M parallelRun st false with_covariates = Except.ok st := by
  have h1 : candidate_keys M st false with_covariates
      = (candidate_keys M st true with_covariates).filter (fun c => ¬ cached st c) := rfl
  refine ⟨h1, ?_⟩
  have hempty : candidate_keys M st false with_covariates = [] := by
    rw [h1, List.filter_eq_nil_iff]
    intro c hc
    simp [hall c hc]
  simp [compute_all_transport_maps, hempty]

/-- Witness for C7: a two-timepoint model with no registry whose single
candidate `(0, 1)` is already cached; the scheduler returns the state
unchanged. -/
theorem compute_all_no_work_when_cached_witness :
    candidate_keys (τ := ℕ) (γ := ℕ)
        ⟨[0, 1], none, [], 1, "tmaps", fun _ => "", fun _ => ""⟩
        ⟨[((0, 1), "tmaps_0_1.loom")], [], [], []⟩ false false
      = (candidate_keys (τ := ℕ) (γ := ℕ)
          ⟨[0, 1], none, [], 1, "tmaps", fun _ => "", fun _ => ""⟩
          ⟨[((0, 1), "tmaps_0_1.loom")], [], [], []⟩ true false).filter
          (fun c => ¬ cached ⟨[((0, 1), "tmaps_0_1.loom")], [], [], []⟩ c)
    ∧ compute_all_transport_maps (τ := ℕ) (γ := ℕ)
        ⟨[0, 1], none, [], 1, "tmaps", fun _ => "", fun _ => ""⟩ (fun s _ => s)
        ⟨[((0, 1), "tmaps_0_1.loom")], [], [], []⟩ false false
      = Except.ok ⟨[((0, 1), "tmaps_0_1.loom")], [], [], []⟩ :=
  compute_all_no_work_when_cached
    ⟨[0, 1], none, [], 1, "tmaps", fun _ => "", fun _ => ""⟩ (fun s _ => s)
    ⟨[((0, 1), "tmaps_0_1.loom")], [], [], []⟩ false (by decide)

/-! ### Claim C8 -/

theorem vecMatMul_length (v : List ℚ) (M : Mat) : (vecMatMul v M).length = M.cols := by
  simp [vecMatMul]

theorem matVecMul_length (M : Mat) (v : List ℚ) : (matVecMul M v).length = M.rows := by
  simp [matVecMul]

theorem normRow_length (v : List ℚ) : (normRow v).length = v.length := by
  simp [normRow]

theorem indexOf_getElem_nodup {τ : Type} [DecidableEq τ] (l : List τ) (h : l.Nodup)
    (k : ℕ) (hk : k < l.length) : l.indexOf l[k] = k := by
  have hm : l[k] ∈ l := List.getElem_mem hk
  have h1 : l.indexOf l[k] < l.length := List.indexOf_lt_length.2 hm
  exact (List.Nodup.getElem_inj_iff h).1 (List.getElem_indexOf h1)

theorem push_forward_none_ok {τ : Type} [DecidableEq τ]
    (timepoints : List τ) (T : ℕ → Mat) (pops : List (Population τ)) (t : τ)
    (normalize : Bool)
    (hne : pops ≠ []) (ht : ∀ q ∈ pops, q.time = t) (hmem : t ∈ timepoints)
    (hnotlast : timepoints.indexOf t + 1 < timepoints.length) :
    push_forward ⟨timepoints, T⟩ pops none normalize
      = Except.ok ((push_steps T normalize (timepoints.indexOf t) 1
            (pops.map (fun q => q.p))).map
          (fun v => Population.mk (timepoints.getD (timepoints.indexOf t + 1) t) v)) := by
  have hut := unique_timepoint_eq_ok pops t hne ht
  have hge : ¬ (timepoints.length ≤ timepoints.indexOf t + 1) := by omega
  have hsub : timepoints.indexOf t + 1 - timepoints.indexOf t = 1 := by omega
  simp [push_forward, hut, except_bind_ok, hmem, hge, hsub, List.getD]

theorem pull_back_none_ok {τ : Type} [DecidableEq τ]
    (timepoints : List τ) (T : ℕ → Mat) (pops : List (Population τ)) (t : τ)
    (normalize : Bool)
    (hne : pops ≠ []) (ht : ∀ q ∈ pops, q.time = t) (hmem : t ∈ timepoints)
    (hnotfirst : timepoints.indexOf t ≠ 0) :
    pull_back ⟨timepoints, T⟩ pops none normalize
      = Except.ok ((pull_steps T normalize (timepoints.indexOf t) 1
            (pops.map (fun q => q.p))).map
          (fun v => Population.mk (timepoints.getD (timepoints.indexOf t - 1) t) v)) := by
  have hut := unique_timepoint_eq_ok pops t hne ht
  have hlt : ¬ (timepoints.indexOf t < timepoints.indexOf t - 1) := by omega
  have hsub : timepoints.indexOf t - (timepoints.indexOf t - 1) = 1 := by omega
  simp [pull_back, hut, except_bind_ok, hmem, hnotfirst, hlt, hsub, List.getD]

/-- C8: for every non-empty set of populations sharing one timepoint `t`
that is not the last entry of the (duplicate-free) timepoint index, and
whose weight vectors have the length required by the step's transport map,
pushing forward one step (`to_time = None`) and pulling the result back one
step yields populations at the original timepoint `t`, as many as were put
in, each of whose weight vectors has the same length as every input weight
vector (the values may differ because of normalization). -/
theorem push_pull_round_trip {τ : Type} [DecidableEq τ]
    (timepoints : List τ) (T : ℕ → Mat) (pops : List (Population τ)) (t : τ)
    (hne : pops ≠ []) (ht : ∀ q ∈ pops, q.time = t) (hmem : t ∈ timepoints)
    (hnd : timepoints.Nodup)
    (hnotlast : timepoints.indexOf t + 1 < timepoints.length)
    (hlen : ∀ q ∈ pops, q.p.length = (T (timepoints.indexOf t)).rows) :
    ∃ pops₂, (push_forward ⟨timepoints, T⟩ pops none true
        >>= fun pops₁ => pull_back ⟨timepoints, T⟩ pops₁ none true) = Except.ok pops₂
      ∧ pops₂.length = pops.length
      ∧ ∀ q₂ ∈ pops₂, q₂.time = t ∧ ∀ q ∈ pops, q₂.p.length = q.p.length := by
  have hi : timepoints.indexOf t < timepoints.length := List.indexOf_lt_length.2 hmem
  have hpush := push_forward_none_ok timepoints T pops t true hne ht hmem hnotlast
  set i := timepoints.indexOf t with hidef
  set t₁ := timepoints.getD (i + 1) t with ht₁def
  set pops₁ := ((push_steps T true i 1 (pops.map (fun q => q.p))).map
      (fun v => Population.mk t₁ v)) with hpops₁
  have ht₁ : t₁ = timepoints[i + 1] := by
    rw [ht₁def, List.getD_eq_getElem timepoints t hnotlast]
  have ht₁mem : t₁ ∈ timepoints := by
    rw [ht₁]
    exact List.getElem_mem hnotlast
  have hidx1 : timepoints.indexOf t₁ = i + 1 := by
    rw [ht₁]
    exact indexOf_getElem_nodup timepoints hnd (i + 1) hnotlast
  have hlen₁ : pops₁.length = pops.length := by
    rw [hpops₁]
    simp [push_steps]
  have hne₁ : pops₁ ≠ [] := by
    intro hcon
    rw [hcon] at hlen₁
    exact hne (List.length_eq_zero.1 hlen₁.symm)
  have ht₁all : ∀ q ∈ pops₁, q.time = t₁ := by
    intro q hq
    rw [hpops₁] at hq
    rcases List.mem_map.1 hq with ⟨v, hv, hveq⟩
    rw [← hveq]
  have hnf : timepoints.indexOf t₁ ≠ 0 := by omega
  have hpull := pull_back_none_ok timepoints T pops₁ t₁ true hne₁ ht₁all ht₁mem hnf
  rw [hidx1] at hpull
  have hback : timepoints.getD (i + 1 - 1) t₁ = t := by
    have h11 : i + 1 - 1 = i := by omega
    rw [h11, List.getD_eq_getElem timepoints t₁ hi]
    exact List.getElem_indexOf hi
  rw [hback] at hpull
  refine ⟨(pull_steps T true (i + 1) 1 (pops₁.map (fun q => q.p))).map
      (fun v => Population.mk t v), ?_, ?_, ?_⟩
  · rw [hpush, except_bind_ok]
    exact hpull
  · simp [pull_steps, hlen₁]
  · intro q₂ hq₂
    rcases List.mem_map.1 hq₂ with ⟨v, hv, hveq⟩
    constructor
    · rw [← hveq]
    · intro q hq
      rw [← hveq]
      simp only [pull_steps, if_true] at hv
      rcases List.mem_map.1 hv with ⟨w, hw, hweq⟩
      rcases List.mem_map.1 hw with ⟨u, hu, hueq⟩
      rw [hlen q hq, ← hweq, normRow_length, ← hueq, matVecMul_length]
      simp

/-- Witness for C8: one population `[1]` at day `0` of the two-timepoint model
`[0, 1]` with the 1×1 transport map `[[1]]`. -/
theorem push_pull_round_trip_witness :
    ∃ pops₂, (push_forward (τ := ℕ) ⟨[0, 1], fun _ => ⟨1, 1, fun _ _ => 1⟩⟩
          [⟨0, [1]⟩] none true
        >>= fun pops₁ => pull_back ⟨[0, 1], fun _ => ⟨1, 1, fun _ _ => 1⟩⟩ pops₁ none true)
        = Except.ok pops₂
      ∧ pops₂.length = [(⟨0, [1]⟩ : Population ℕ)].length
      ∧ ∀ q₂ ∈ pops₂, q₂.time = 0
          ∧ ∀ q ∈ [(⟨0, [1]⟩ : Population ℕ)], q₂.p.length = q.p.length :=
  push_pull_round_trip [0, 1] (fun _ => ⟨1, 1, fun _ _ => 1⟩) [⟨0, [1]⟩] 0
    (by simp) (by simp) (by decide) (by decide) (by decide)
    (by intro q hq; simp at hq; subst hq; rfl)

/-! ### Claim C9 -/

/-- The uniform distribution that the claim predicts for one id group: over
the cells alive at `d` (in row order), each cell whose id belongs to the
group gets weight `1/m` where `m` is the number of alive cells of the group,
and every other cell gets `0`. -/
def uniform_weights {ι τ : Type} [DecidableEq ι] [DecidableEq τ]
    (cells : List (ι × τ)) (d : τ) (g : List ι) : List ℚ :=
  let alive := cells.filter (fun c => c.2 = d)
  let m : ℕ := (alive.filter (fun c => c.1 ∈ g)).length
  alive.map (fun c => if c.1 ∈ g then (1 : ℚ) / m else 0)

theorem mem_get_indexer_iff {ι : Type} [DecidableEq ι] (index : List ι) (g : List ι) (i : ℕ)
    (hnd : index.Nodup) (hi : i < index.length) :
    ((i : ℤ) ∈ get_indexer_for index g) ↔ index[i] ∈ g := by
  constructor
  · intro h
    rw [get_indexer_for, List.mem_map] at h
    rcases h with ⟨s, hs, heq⟩
    by_cases hsm : s ∈ index
    · rw [if_pos hsm] at heq
      have hix : index.indexOf s = i := by exact_mod_cast heq
      subst hix
      rw [List.getElem_indexOf hi]
      exact hs
    · rw [if_neg hsm] at heq
      omega
  · intro h
    rw [get_indexer_for, List.mem_map]
    refine ⟨index[i], h, ?_⟩
    rw [if_pos (List.getElem_mem hi), indexOf_getElem_nodup index hnd i hi]

theorem indsAtDayFrom_map_indicator {ι τ : Type} [DecidableEq ι] [DecidableEq τ]
    (cells : List (ι × τ)) (d : τ) (g : List ι)
    (hnd : (cells.map Prod.fst).Nodup) :
    ∀ (rest : List (ι × τ)) (k : ℕ), rest = cells.drop k →
      (indsAtDayFrom rest d k).map
          (fun (i : ℕ) => if (i : ℤ) ∈ get_indexer_for (cells.map Prod.fst) g then (1 : ℚ) else 0)
        = (rest.filter (fun c => c.2 = d)).map
            (fun c => if c.1 ∈ g then (1 : ℚ) else 0) := by
  intro rest
  induction rest with
  | nil => intro k hk; simp [indsAtDayFrom]
  | cons c rest' ih =>
      intro k hk
      have hklt : k < cells.length := by
        by_contra hcon
        rw [List.drop_eq_nil_of_le (by omega)] at hk
        exact List.cons_ne_nil c rest' hk
      have hdk := List.drop_eq_getElem_cons hklt
      rw [hdk] at hk
      have hc : c = cells[k] := (List.cons.injEq _ _ _ _ ▸ hk).1
      have hrest : rest' = cells.drop (k + 1) := (List.cons.injEq _ _ _ _ ▸ hk).2
      have hmem_iff : ((k : ℤ) ∈ get_indexer_for (cells.map Prod.fst) g)
          ↔ cells[k].1 ∈ g := by
        have hlen : k < (cells.map Prod.fst).length := by simpa using hklt
        rw [mem_get_indexer_iff (cells.map Prod.fst) g k hnd hlen]
        simp
      by_cases hday : c.2 = d
      · simp only [indsAtDayFrom, if_pos hday, List.map_cons]
        rw [List.filter_cons_of_pos (by simpa using hday), List.map_cons,
          ih (k + 1) hrest]
        congr 1
        rw [hc]
        by_cases hg : cells[k].1 ∈ g
        · rw [if_pos (hmem_iff.2 hg), if_pos hg]
        · rw [if_neg (fun hcon => hg (hmem_iff.1 hcon)), if_neg hg]
      · simp only [indsAtDayFrom, if_neg hday]
        rw [List.filter_cons_of_neg (by simpa using hday)]
        exact ih (k + 1) hrest

theorem sum_map_ite_one_zero {α : Type} (l : List α) (P : α → Prop) [DecidablePred P] :
    (l.map (fun x => if P x then (1 : ℚ) else 0)).sum
      = ((l.filter (fun x => P x)).length : ℚ) := by
  induction l with
  | nil => simp
  | cons a l ih =>
      by_cases h : P a <;> simp [h, ih] <;> push_cast <;> ring

theorem get_population_uniform {ι τ : Type} [DecidableEq ι] [DecidableEq τ]
    (cells : List (ι × τ)) (d : τ) (g : List ι) (s : ι)
    (hnd : (cells.map Prod.fst).Nodup) (hs : s ∈ g) (halive : (s, d) ∈ cells) :
    get_population cells d g = some (Population.mk d (uniform_weights cells d g)) := by
  have hbridge := indsAtDayFrom_map_indicator cells d g hnd cells 0 (by simp)
  have hmap : (indsAtDay cells d).map
        (fun (i : ℕ) => if (i : ℤ) ∈ get_indexer_for (cells.map Prod.fst) g then (1 : ℚ) else 0)
      = (cells.filter (fun c => c.2 = d)).map
          (fun c => if c.1 ∈ g then (1 : ℚ) else 0) := by
    rw [indsAtDay]
    exact hbridge
  have halivef : (s, d) ∈ (cells.filter (fun c => c.2 = d)).filter (fun c => c.1 ∈ g) := by
    rw [List.mem_filter, List.mem_filter]
    exact ⟨⟨halive, by simp⟩, by simpa using hs⟩
  have hpos : 0 < ((cells.filter (fun c => c.2 = d)).filter (fun c => c.1 ∈ g)).length :=
    List.length_pos.2 (fun hcon => by rw [hcon] at halivef; exact List.not_mem_nil _ halivef)
  have hnz : ((((cells.filter (fun c => c.2 = d)).filter (fun c => c.1 ∈ g)).length : ℚ)) ≠ 0 := by
    exact_mod_cast Nat.pos_iff_ne_zero.1 hpos
  simp only [get_population, hmap, sum_map_ite_one_zero]
  rw [if_neg hnz]
  simp only [uniform_weights, List.map_map]
  congr 1
  congr 1
  refine List.map_congr_left ?_
  intro c hc
  by_cases hg : c.1 ∈ g
  · simp [Function.comp, hg]
  · simp [Function.comp, hg]

/-- C9: `population_from_ids` builds each id group's population independently
of the other groups passed in the same call: with a duplicate-free cell-id
index, for two groups `g₁`, `g₂` sharing an id `s` that is alive at the
requested timepoint, each group's resulting population is the uniform
distribution over exactly that group's alive cells — the shared id receives
its full uniform weight `1/m` in both vectors (`m` the group's own alive
count), not split between them — and the population produced for `g₁` is the
same whether `g₁` is passed alone or together with `g₂`. -/
theorem population_from_ids_independent {ι τ : Type} [DecidableEq ι] [DecidableEq τ]
    (cells : List (ι × τ)) (g₁ g₂ : List ι) (d : τ) (s : ι)
    (hnd : (cells.map Prod.fst).Nodup) (hs1 : s ∈ g₁) (hs2 : s ∈ g₂)
    (halive : (s, d) ∈ cells) :
    population_from_ids cells [g₁, g₂] d
      = [some (Population.mk d (uniform_weights cells d g₁)),
         some (Population.mk d (uniform_weights cells d g₂))]
    ∧ population_from_ids cells [g₁] d
      = [some (Population.mk d (uniform_weights cells d g₁))] := by
  have h1 := get_population_uniform cells d g₁ s hnd hs1 halive
  have h2 := get_population_uniform cells d g₂ s hnd hs2 halive
  exact ⟨by simp [population_from_ids, h1, h2], by simp [population_from_ids, h1]⟩

/-- Witness for C9: cells `0` and `1` both at day `0`, groups `[0, 1]` and
`[0]` sharing id `0`. -/
theorem population_from_ids_independent_witness :
    population_from_ids (ι := ℕ) (τ := ℕ) [(0, 0), (1, 0)] [[0, 1], [0]] 0
      = [some (Population.mk 0 (uniform_weights [(0, 0), (1, 0)] 0 [0, 1])),
         some (Population.mk 0 (uniform_weights [(0, 0), (1, 0)] 0 [0]))]
    ∧ population_from_ids (ι := ℕ) (τ := ℕ) [(0, 0), (1, 0)] [[0, 1]] 0
      = [some (Population.mk 0 (uniform_weights [(0, 0), (1, 0)] 0 [0, 1]))] :=
  population_from_ids_independent [(0, 0), (1, 0)] [0, 1] [0] 0 0
    (by decide) (by decide) (by decide) (by decide)

/-! ### Claim C1 -/

theorem getD_map_div (p : List ℚ) (c : ℚ) (i : ℕ) :
    (p.map (fun w => w / c)).getD i 0 = p.getD i 0 / c := by
  rcases lt_or_ge i p.length with h | h
  · simp [List.getD, List.getElem?_map, List.getElem?_eq_getElem, h]
  · simp [List.getD, List.getElem?_eq_none, h]

theorem list_sum_div (l : List ℚ) (c : ℚ) :
    (l.map (fun x => x / c)).sum = l.sum / c := by
  induction l with
  | nil => simp
  | cons a l ih => simp [ih, add_div]

theorem npGather_map_div (p : List ℚ) (c : ℚ) (idxs : List ℤ) :
    npGather (p.map (fun w => w / c)) idxs = (npGather p idxs).map (fun w => w / c) := by
  simp only [npGather, List.length_map, List.map_map]
  refine List.map_congr_left ?_
  intro i hi
  simp only [Function.comp]
  exact getD_map_div p c (pyIdx p.length i)

theorem vecMatMul_map_div (v : List ℚ) (c : ℚ) (M : Mat) :
    vecMatMul (v.map (fun w => w / c)) M = (vecMatMul v M).map (fun w => w / c) := by
  simp only [vecMatMul, List.map_map]
  refine List.map_congr_left ?_
  intro j hj
  simp only [Function.comp]
  rw [← list_sum_div]
  congr 1
  rw [List.map_map]
  refine List.map_congr_left ?_
  intro i hi
  simp only [Function.comp]
  rw [getD_map_div, div_mul_eq_mul_div]

/-- C1 counterexample: dataset with two cells `10`, `11` at day `0`, cell-set
matrix over the single row id `10` (one cell set, membership `1`), and the
population with weights `[1, 1]`. The intersection is `{10}` with intersected
mass `1`, so the claim (renormalize over the intersection) predicts census
`[1]`; the code divides by the total mass `2` and returns `[1/2]`. -/
theorem population_census_intersection_renormalization_counterexample :
    population_census (ι := ℕ) (τ := ℕ) [(10, 0), (11, 0)] ⟨[10], ⟨1, 1, fun _ _ => 1⟩⟩
        [⟨0, [1, 1]⟩] = Except.ok [[1/2]]
    ∧ population_census_claimVersion (ι := ℕ) (τ := ℕ) [(10, 0), (11, 0)]
        ⟨[10], ⟨1, 1, fun _ _ => 1⟩⟩ [⟨0, [1, 1]⟩] = Except.ok [[1]] := by
  constructor
  · simp [population_census, unique_timepoint, except_bind_ok, idsAtDay,
      get_indexer_for, npGather, pyIdx, Mat.gatherRows, vecMatMul, List.filter,
      List.range_succ, List.indexOf_cons_self]
    norm_num
  · simp [population_census_claimVersion, unique_timepoint, except_bind_ok, idsAtDay,
      get_indexer_for, npGather, pyIdx, Mat.gatherRows, vecMatMul, List.filter,
      List.range_succ, List.indexOf_cons_self]

/-- C1 as amended: for every non-empty set of populations sharing one
timepoint `t`, when the intersection of the cell-set matrix's row ids with
the cell ids alive at `t` is non-empty, `population_census` renormalizes each
population's weight vector by its TOTAL mass — dividing by the sum of the
full weight vector, and leaving the weights as-is when that total mass is
numerically zero — and then takes, per cell-set column, the weighted sum of
the membership matrix restricted to the intersection (`raw_census`), so each
census entry is the probability mass falling in that cell set relative to
the population's total mass. -/
theorem population_census_normalizes_by_total_mass {ι τ : Type} [DecidableEq ι] [DecidableEq τ]
    (cells : List (ι × τ)) (csm : CellSetMatrix ι) (pops : List (Population τ)) (t : τ)
    (hne : pops ≠ []) (ht : ∀ q ∈ pops, q.time = t)
    (hinter : csm.rowIds.filter (fun s => s ∈ idsAtDay cells t) ≠ []) :
    population_census cells csm pops
      = Except.ok (pops.map (fun pop =>
          if pop.p.sum = 0 then raw_census cells csm t pop.p
          else (raw_census cells csm t pop.p).map (fun w => w / pop.p.sum))) := by
  have hut := unique_timepoint_eq_ok pops t hne ht
  have hie : (csm.rowIds.filter (fun s => s ∈ idsAtDay cells t)).isEmpty = false := by
    cases hcase : (csm.rowIds.filter (fun s => decide (s ∈ idsAtDay cells t))).isEmpty
    · rfl
    · exact absurd (List.isEmpty_iff.1 hcase) hinter
  simp only [population_census, hut, except_bind_ok, hie, Bool.false_eq_true, if_false]
  congr 1
  refine List.map_congr_left ?_
  intro pop hpop
  by_cases hz : pop.p.sum = 0
  · rw [if_pos hz, if_pos hz, raw_census]
  · rw [if_neg hz, if_neg hz, raw_census, npGather_map_div, vecMatMul_map_div]

/-- Witness for the amended C1, at the counterexample's input: census
`[1/2]` equals the intersected raw census `[1]` divided by the total mass
`2`. -/
theorem population_census_normalizes_by_total_mass_witness :
    population_census (ι := ℕ) (τ := ℕ) [(10, 0), (11, 0)] ⟨[10], ⟨1, 1, fun _ _ => 1⟩⟩
        [⟨0, [1, 1]⟩]
      = Except.ok ([(⟨0, [1, 1]⟩ : Population ℕ)].map (fun pop =>
          if pop.p.sum = 0 then
            raw_census [(10, 0), (11, 0)] ⟨[10], ⟨1, 1, fun _ _ => 1⟩⟩ 0 pop.p
          else (raw_census [(10, 0), (11, 0)] ⟨[10], ⟨1, 1, fun _ _ => 1⟩⟩ 0 pop.p).map
            (fun w => w / pop.p.sum))) :=
  population_census_normalizes_by_total_mass [(10, 0), (11, 0)]
    ⟨[10], ⟨1, 1, fun _ _ => 1⟩⟩ [⟨0, [1, 1]⟩] 0 (by simp) (by simp) (by decide)
